import Mathlib

/-
Verification of the RAG core of saku-ai-chat.

The development shallowly embeds the pure data flow of
`src/chroma_manager.py`, `src/document_processor.py` and
`src/rag_manager.py`.  Python strings are modelled as `List Char`
(Python `len` counts code points exactly as `List.length` does) or as
Lean `String` where only concatenation is involved; Python `float`
distances are modelled as `ℚ` (the code only compares them with `<=`);
fallible calls into external services (OpenAI embeddings, the Chroma
backend, PyMuPDF) are modelled as `Except`-valued parameters so that the
`try/except` policy of each public operation can be stated; results of
Chroma write calls follow the documented semantics of
`chromadb.Collection.add` (records whose id already exists are skipped
with a warning, never updated).
-/

namespace SakuChat

/-- Characters of a Python string (`len` counts code points, exactly as
`List.length` counts elements here). -/
abbrev Text := List Char

/-- Per-page metadata produced by `DocumentProcessor.extract_text_from_pdf`
(`{"source": file_name, "page": page_num}`, chroma_manager.py lines 117-123). -/
structure PageMeta where
  source : String
  page : Nat
deriving DecidableEq

/-- One extracted page: `{"text": ..., "metadata": {...}}`. -/
structure Page where
  text : Text
  metadata : PageMeta
deriving DecidableEq

/-- Chunk metadata: page metadata plus `chunk_index`
(document_processor.py lines 247-253). -/
structure ChunkMeta where
  source : String
  page : Nat
  chunk_index : Nat
deriving DecidableEq

/-- A chunk produced by `DocumentProcessor.split_into_chunks`. -/
structure Chunk where
  text : Text
  metadata : ChunkMeta
deriving DecidableEq

/-- A formatted search result of `ChromaManager.search`
(chroma_manager.py lines 182-186).  The distance is a Python float; the
code only ever compares distances, so `ℚ` is an adequate model. -/
structure SearchResult where
  text : String
  metadata : ChunkMeta
  distance : ℚ
deriving DecidableEq

/-- The persisted collection, keyed by record id.  `add_documents` passes
the embedding vector alongside, but no claim depends on its value, so a
record is modelled by its id together with its document and metadata
(i.e. the chunk). -/
abbrev Store := List (String × Chunk)

/-- The record id built in `ChromaManager.add_documents`
(chroma_manager.py lines 115-118):
`f"{chunk['metadata']['source']}_{chunk['metadata']['page']}_{chunk['metadata']['chunk_index']}"`. -/
def recordId (c : Chunk) : String :=
  c.metadata.source ++ "_" ++ toString c.metadata.page ++ "_" ++ toString c.metadata.chunk_index

/-- Semantics of `self.collection.add(ids=..., ...)` as documented by
ChromaDB: each record whose id is already present in the collection is
ignored (a warning is logged), otherwise it is appended.  `add` never
updates an existing record (that is what `upsert` would do, and this code
calls `add`). -/
def chromaAdd (st : Store) : List (String × Chunk) → Store
  | [] => st
  | r :: rs =>
    if st.any (fun p => p.1 == r.1) then chromaAdd st rs
    else chromaAdd (st ++ [r]) rs

/-- `ChromaManager.add_documents` (chroma_manager.py lines 85-136).
`embedDocs` stands for `self.embeddings.embed_documents` and
`collectionAdd` for `self.collection.add`; both run inside the
`try`, and any exception from them is caught and turned into `False`,
leaving the store untouched.  On the empty chunk list the function
returns `False` before any call is made. -/
def add_documents
    (embedDocs : List Text → Except String (List (List ℚ)))
    (collectionAdd : Store → List (String × Chunk) → Except String Store)
    (st : Store) (chunks : List Chunk) : Bool × Store :=
  if chunks = [] then (false, st)
  else
    let texts := chunks.map (fun c => c.text)
    let ids := chunks.map recordId
    match embedDocs texts with
    | .error _ => (false, st)
    | .ok _embeddings =>
      match collectionAdd st (ids.zip chunks) with
      | .error _ => (false, st)
      | .ok st' => (true, st')

/-- The embedding service on its success path (the embedding vectors
themselves are irrelevant to every claim). -/
def okEmbed : List Text → Except String (List (List ℚ)) :=
  fun ts => .ok (ts.map fun _ => [])

/-- The Chroma backend on its success path: `collection.add` with the
documented skip-existing-ids semantics. -/
def okAdd : Store → List (String × Chunk) → Except String Store :=
  fun st batch => .ok (chromaAdd st batch)

/-- `ChromaManager.search` (chroma_manager.py lines 138-192).
`queryEmbed` stands for `self.embeddings.embed_query(query)` and
`backendQuery` for `self.collection.query` composed with the in-`try`
formatting loop (a pure zip of the returned parallel lists into
`{"text", "metadata", "distance"}` dictionaries).  Any exception is
caught and an empty list returned. -/
def search (queryEmbed : Except String (List ℚ))
    (backendQuery : List ℚ → Except String (List SearchResult)) : List SearchResult :=
  match queryEmbed.bind backendQuery with
  | .ok rs => rs
  | .error _ => []

/-- `ChromaManager.search_with_threshold` (chroma_manager.py lines
194-239), as a function of the list returned by `self.search(query,
n_results)`:  empty results give `([], False)`; otherwise only
`results[0]["distance"]` is inspected, and the whole result list is
accepted iff it is `<= threshold`. -/
def search_with_threshold (results : List SearchResult) (threshold : ℚ) :
    List SearchResult × Bool :=
  match results with
  | [] => ([], false)
  | r :: rs =>
    if r.distance ≤ threshold then (r :: rs, true) else ([], false)

/-- The dictionary returned by `RAGManager.get_rag_response_data`
(rag_manager.py lines 252-304). -/
structure RagData where
  use_rag : Bool
  context : String
  prompt : String
  search_results : List SearchResult
deriving DecidableEq

/-- Loop body of `RAGManager.build_rag_context` (rag_manager.py lines
204-215): `enumerate(search_results, start=1)` rendering each result as
`f"【参照資料{i}】({source} / ページ{page})\n{text}"`.  The metadata
dictionary always carries `source` and `page` here, so the `.get`
defaults are never taken. -/
def buildRagContextGo : List SearchResult → Nat → List String
  | [], _ => []
  | r :: rs, i =>
    ("【参照資料" ++ toString i ++ "】(" ++ r.metadata.source ++ " / ページ"
      ++ toString r.metadata.page ++ ")\n" ++ r.text) :: buildRagContextGo rs (i + 1)

/-- `RAGManager.build_rag_context` (rag_manager.py lines 176-215). -/
def build_rag_context (search_results : List SearchResult) : String :=
  if search_results = [] then ""
  else String.intercalate "\n\n" (buildRagContextGo search_results 1)

/-- `RAGManager.build_rag_prompt` (rag_manager.py lines 217-250): the
fixed instruction template around the context and question. -/
def build_rag_prompt (user_question : String) (context : String) : String :=
  "以下の参照資料に基づいて、ユーザーの質問に回答してください。    \n\n【重要なルール】\n1. NSC業務フローに基づき、またはネットサービスセンターのローカルルールによると、という接頭語を付けて回答してください\n2. 参照資料に書かれている情報のみを使用してください\n3. 参照資料にない情報は「資料に記載がありません」と伝えてください\n4. 具体的なコード名やルール名がある場合は、それを明記してください\n\n===== 参照資料 =====\n"
    ++ context
    ++ "\n====================\n\nユーザーの質問: " ++ user_question
    ++ "\n\n上記の参照資料に基づいて回答してください:"

/-- `RAGManager.get_rag_response_data` (rag_manager.py lines 252-304), as
a function of the search output that `self.query` (which simply forwards
to `search_with_threshold`) works from. -/
def get_rag_response_data (user_question : String)
    (searchOutput : List SearchResult) (threshold : ℚ) : RagData :=
  let qr := search_with_threshold searchOutput threshold
  if qr.2 then
    let context := build_rag_context qr.1
    { use_rag := true
      context := context
      prompt := build_rag_prompt user_question context
      search_results := qr.1 }
  else
    { use_rag := false, context := "", prompt := "", search_results := [] }

/-- Python `str.strip()` on the relevant (ASCII) whitespace: drop leading
and trailing whitespace characters.  Used with `strip_whitespace=True` by
`TextSplitter._join_docs`. -/
def stripText (t : Text) : Text :=
  ((t.dropWhile Char.isWhitespace).reverse.dropWhile Char.isWhitespace).reverse

/-- Whether `pat` is an initial segment of `t` (helper for literal
substring search, standing in for `re.search(re.escape(s), text)`). -/
def leadsText : Text → Text → Bool
  | [], _ => true
  | _ :: _, [] => false
  | p :: ps, c :: cs => p == c && leadsText ps cs

/-- Index of the leftmost occurrence of `pat` in `t`, if any. -/
def findOcc (pat : Text) : Text → Option Nat
  | [] => if leadsText pat [] then some 0 else none
  | c :: rest =>
    if leadsText pat (c :: rest) then some 0
    else (findOcc pat rest).map (· + 1)

/-- `re.search(re.escape(pat), t)` succeeds iff `pat` occurs in `t`. -/
def occursIn (pat : Text) (t : Text) : Bool :=
  (findOcc pat t).isSome

/-- Leftmost, non-overlapping split of `t` on the literal separator
`sep`, as `re.split` performs on an escaped pattern.  Each recursion
step consumes at least one character (`i + sep.length ≥ 1` for a
non-empty separator), so `t.length` steps of fuel always suffice; the
fuel-exhausted branch coincides with the no-occurrence branch and is
never reached for `fuel ≥ t.length`. -/
def splitPartsAux (sep : Text) : Nat → Text → List Text
  | 0, t => [t]
  | fuel + 1, t =>
    match findOcc sep t with
    | none => [t]
    | some i => t.take i :: splitPartsAux sep fuel (t.drop (i + sep.length))

/-- Leftmost, non-overlapping split of `t` on a non-empty literal
separator. -/
def splitParts (sep : Text) (t : Text) : List Text :=
  splitPartsAux sep t.length t

/-- `_split_text_with_regex(text, re.escape(sep), keep_separator=True)`
from langchain_text_splitters: split on the separator keeping it, the
kept separator being prepended to the following piece
(`[_splits[0]] + [_splits[i] + _splits[i+1] for i in range(1, len, 2)]`),
then drop empty pieces.  An empty separator yields `list(text)`. -/
def splitTextWithSep (sep : Text) (t : Text) : List Text :=
  if sep = [] then (t.map fun c => [c]).filter (fun s => s ≠ [])
  else
    match splitParts sep t with
    | [] => []
    | p :: ps => (p :: ps.map fun q => sep ++ q).filter (fun s => s ≠ [])

/-- Separator selection loop of
`RecursiveCharacterTextSplitter._split_text`: starting from the given
separator list, pick the first separator that is `""` or occurs in the
text (recording the remaining separators as the new list); if none
matches, the last separator is kept with no remaining separators.
`([], [])` for an empty list is unreachable (Python would index
`separators[-1]`). -/
def chooseSep (seps : List Text) (text : Text) : Text × List Text :=
  match seps with
  | [] => ([], [])
  | s :: rest =>
    if s = [] then ([], [])
    else if occursIn s text then (s, rest)
    else
      match rest with
      | [] => (s, [])
      | _ :: _ => chooseSep rest text

/-- `TextSplitter._join_docs(docs, separator)` with the merge separator
`""` (the splitter keeps separators, so `_merge_splits` joins with the
empty separator) and `strip_whitespace=True`: join, strip, and drop the
result when empty. -/
def joinDocs (docs : List Text) : Option Text :=
  if stripText docs.flatten = [] then none
  else some (stripText docs.flatten)

/-- The popping loop of `TextSplitter._merge_splits`:
`while total > chunk_overlap or (total + len > chunk_size and total > 0)`
drop the first retained split and decrease `total` by its length (the
separator length is 0 here).  `total` is maintained equal to the sum of
the lengths of `cd`, hence the loop guard is false on an empty `cd` and
the inner `[]` case is unreachable. -/
def popOverlap (cs ov dlen : Nat) : List Text → Nat → List Text × Nat
  | [], total => ([], total)
  | c :: rest, total =>
    if total > ov ∨ (total + dlen > cs ∧ total > 0) then
      popOverlap cs ov dlen rest (total - c.length)
    else (c :: rest, total)

/-- Main loop of `TextSplitter._merge_splits` (separator `""`, so the
separator length terms vanish): accumulate splits into `currentDoc`
while they fit in `chunk_size`; when the next split no longer fits and
`currentDoc` is non-empty, emit the joined doc and retain an overlap of
at most `chunk_overlap` characters, then continue. -/
def mergeSplitsGo (cs ov : Nat) : List Text → List Text → Nat → List Text → List Text
  | [], currentDoc, _total, docs =>
    match joinDocs currentDoc with
    | some d => docs ++ [d]
    | none => docs
  | d :: ds, currentDoc, total, docs =>
    if total + d.length > cs then
      match currentDoc with
      | [] => mergeSplitsGo cs ov ds [d] (total + d.length) docs
      | c :: cd =>
        let docs' :=
          match joinDocs (c :: cd) with
          | some dd => docs ++ [dd]
          | none => docs
        let p := popOverlap cs ov d.length (c :: cd) total
        mergeSplitsGo cs ov ds (p.1 ++ [d]) (p.2 + d.length) docs'
    else mergeSplitsGo cs ov ds (currentDoc ++ [d]) (total + d.length) docs

/-- `TextSplitter._merge_splits(splits, "")`. -/
def mergeSplits (cs ov : Nat) (splits : List Text) : List Text :=
  mergeSplitsGo cs ov splits [] 0 []

/-- Per-split loop of `RecursiveCharacterTextSplitter._split_text`:
splits shorter than `chunk_size` are buffered in `good` and merged;
a split at least `chunk_size` long first flushes the buffer, then is
either appended raw (when no separators remain) or split recursively by
`recurse`. -/
def goSplitsF (cs ov : Nat) (recurse : Text → List Text) (isRaw : Bool) :
    List Text → List Text → List Text
  | [], good => if good = [] then [] else mergeSplits cs ov good
  | s :: rest, good =>
    if s.length < cs then goSplitsF cs ov recurse isRaw rest (good ++ [s])
    else
      (if good = [] then [] else mergeSplits cs ov good)
        ++ (if isRaw then [s] else recurse s)
        ++ goSplitsF cs ov recurse isRaw rest []

/-- `RecursiveCharacterTextSplitter._split_text(text, separators)`.  The
recursion always proceeds to a strictly shorter separator list, so
`fuel = separators.length` suffices; the `0` and `[]` fallbacks are
unreachable (Python would index `separators[-1]` on an empty list). -/
def splitTextFuel (cs ov : Nat) : Nat → List Text → Text → List Text
  | 0, _, _ => []
  | fuel + 1, seps, text =>
    match seps with
    | [] => []
    | _ :: _ =>
      let c := chooseSep seps text
      goSplitsF cs ov (splitTextFuel cs ov fuel c.2) c.2.isEmpty
        (splitTextWithSep c.1 text) []

/-- The separator hierarchy configured in `DocumentProcessor.__init__`
(document_processor.py line 69). -/
def defaultSeparators : List Text :=
  [['\n', '\n'], ['\n'], ['。'], ['、'], [' '], []]

/-- `self.text_splitter.split_text(text)` with the configuration of
`DocumentProcessor.__init__`. -/
def splitText (cs ov : Nat) (t : Text) : List Text :=
  splitTextFuel cs ov defaultSeparators.length defaultSeparators t

/-- Inner loop of `DocumentProcessor.split_into_chunks`: attach the page
metadata plus the running `chunk_index` to each chunk text of a page. -/
def attachChunks (m : PageMeta) : List Text → Nat → List Chunk
  | [], _ => []
  | t :: ts, idx =>
    { text := t, metadata := { source := m.source, page := m.page, chunk_index := idx } }
      :: attachChunks m ts (idx + 1)

/-- `DocumentProcessor.split_into_chunks` (document_processor.py lines
206-257) with the running `chunk_index` made explicit: it starts at 0
and keeps increasing across pages. -/
def splitIntoChunksGo (cs ov : Nat) : List Page → Nat → List Chunk
  | [], _ => []
  | p :: ps, idx =>
    let pcs := splitText cs ov p.text
    attachChunks p.metadata pcs idx ++ splitIntoChunksGo cs ov ps (idx + pcs.length)

/-- `DocumentProcessor.split_into_chunks(pages)`. -/
def split_into_chunks (cs ov : Nat) (pages : List Page) : List Chunk :=
  splitIntoChunksGo cs ov pages 0

/-- `DocumentProcessor.extract_text_from_pdf` (document_processor.py
lines 72-134).  `openDoc` stands for `fitz.open(pdf_path)` together with
per-page `get_text()`; on any exception the function returns `[]`.
Pages are numbered from 1 (`enumerate(doc, start=1)`) and pages whose
stripped text is empty are dropped. -/
def extract_text_from_pdf (fileName : String)
    (openDoc : Except String (List Text)) : List Page :=
  match openDoc with
  | .error _ => []
  | .ok pageTexts =>
    pageTexts.enum.filterMap fun p =>
      if stripText p.2 ≠ [] then
        some { text := p.2, metadata := { source := fileName, page := p.1 + 1 } }
      else none

/-- The splitter configuration held by a constructed
`DocumentProcessor`. -/
structure TextSplitterConfig where
  chunk_size : Nat
  chunk_overlap : Nat
deriving DecidableEq

/-- `DocumentProcessor.__init__` (document_processor.py lines 36-70).
The constructor itself performs no validation; it builds a
`RecursiveCharacterTextSplitter`, whose langchain base constructor
raises `ValueError("Got a larger chunk overlap ... than chunk size")`
exactly when `chunk_overlap > chunk_size`. -/
def document_processor_init (chunk_size chunk_overlap : Nat) :
    Except String TextSplitterConfig :=
  if chunk_overlap > chunk_size then
    .error "Got a larger chunk overlap than chunk size, should be smaller."
  else .ok { chunk_size := chunk_size, chunk_overlap := chunk_overlap }

/-- Length of the longest region shared by `a` (as a suffix) and `b` (as
a prefix): the overlap that consecutive chunks share when the splitter
carries text across a chunk boundary. -/
def overlapLen (a b : List Char) : Nat :=
  ((List.range (min a.length b.length + 1)).filter
      (fun k => a.drop (a.length - k) = b.take k)).foldr max 0

/-- Sample metadata used to instantiate theorems on concrete inputs. -/
def sampleMeta : ChunkMeta := { source := "rules.pdf", page := 3, chunk_index := 0 }

/-- Sample search result with distance 1. -/
def sampleResult : SearchResult := { text := "本文", metadata := sampleMeta, distance := 1 }

/-- Sample chunk ("old" content of record doc.pdf_1_0). -/
def chunkOld : Chunk := { text := ['o', 'l', 'd'], metadata := { source := "doc.pdf", page := 1, chunk_index := 0 } }

/-- Sample chunk ("new" content for the same record id doc.pdf_1_0). -/
def chunkNew : Chunk := { text := ['n', 'e', 'w'], metadata := { source := "doc.pdf", page := 1, chunk_index := 0 } }

/-- Sample chunk with a distinct id doc.pdf_1_1. -/
def chunkB : Chunk := { text := ['b'], metadata := { source := "doc.pdf", page := 1, chunk_index := 1 } }

/-- A page text of 50 `X`, one space, 40 `Y`: the splitter cuts it at the
space into two chunks that share no text at all. -/
def cxPageText : Text := List.replicate 50 'X' ++ ' ' :: List.replicate 40 'Y'

/-- The page holding `cxPageText`. -/
def cxPage : Page := { text := cxPageText, metadata := { source := "a.pdf", page := 1 } }

/-! Helper lemmas about the modelled `collection.add`. -/

/-- `collection.add` never removes a record: membership is preserved. -/
theorem mem_chromaAdd (b : List (String × Chunk)) :
    ∀ (st : Store) (p : String × Chunk), p ∈ st → p ∈ chromaAdd st b := by
  induction b with
  | nil => intro st p hp; exact hp
  | cons r rs ih =>
    intro st p hp
    unfold chromaAdd
    by_cases h : st.any (fun q => q.1 == r.1)
    · rw [if_pos h]; exact ih st p hp
    · rw [if_neg h]; exact ih (st ++ [r]) p (List.mem_append_left _ hp)

/-- After `collection.add`, every id of the batch is present in the store. -/
theorem chromaAdd_present (b : List (String × Chunk)) :
    ∀ (st : Store) (r : String × Chunk), r ∈ b →
      ∃ p ∈ chromaAdd st b, p.1 = r.1 := by
  induction b with
  | nil => intro st r hr; cases hr
  | cons r' rs ih =>
    intro st r hr
    unfold chromaAdd
    by_cases h : st.any (fun q => q.1 == r'.1)
    · rw [if_pos h]
      rcases List.mem_cons.mp hr with h1 | h2
      · rcases List.any_eq_true.mp h with ⟨q, hq, hq1⟩
        exact ⟨q, mem_chromaAdd rs st q hq, h1 ▸ (eq_of_beq hq1)⟩
      · exact ih st r h2
    · rw [if_neg h]
      rcases List.mem_cons.mp hr with h1 | h2
      · exact ⟨r', mem_chromaAdd rs (st ++ [r']) r'
          (List.mem_append_right _ (List.mem_singleton.mpr rfl)), by rw [h1]⟩
      · exact ih (st ++ [r']) r h2

/-- `collection.add` of a batch whose ids are all already present is a
no-op. -/
theorem chromaAdd_all_present (b : List (String × Chunk)) (st : Store)
    (h : ∀ r ∈ b, st.any (fun q => q.1 == r.1) = true) :
    chromaAdd st b = st := by
  induction b with
  | nil => rfl
  | cons r rs ih =>
    unfold chromaAdd
    rw [if_pos (h r (List.mem_cons_self r rs))]
    exact ih fun r' hr' => h r' (List.mem_cons_of_mem r hr')

/-- Re-running the same `collection.add` leaves the store unchanged. -/
theorem chromaAdd_idem (st : Store) (b : List (String × Chunk)) :
    chromaAdd (chromaAdd st b) b = chromaAdd st b := by
  apply chromaAdd_all_present
  intro r hr
  rcases chromaAdd_present b st r hr with ⟨p, hp, hpeq⟩
  exact List.any_eq_true.mpr ⟨p, hp, beq_iff_eq.mpr hpeq⟩

/-- `collection.add` only appends records whose id was absent; existing
records are never touched. -/
theorem chromaAdd_extends (b : List (String × Chunk)) :
    ∀ (st : Store), ∃ ext, chromaAdd st b = st ++ ext ∧
      ∀ p ∈ ext, st.any (fun q => q.1 == p.1) = false := by
  induction b with
  | nil => intro st; exact ⟨[], by simp [chromaAdd], by simp⟩
  | cons r rs ih =>
    intro st
    unfold chromaAdd
    by_cases h : st.any (fun q => q.1 == r.1)
    · rw [if_pos h]; exact ih st
    · rw [if_neg h]
      rcases ih (st ++ [r]) with ⟨ext, hext, habs⟩
      refine ⟨r :: ext, by rw [hext]; simp, ?_⟩
      intro p hp
      rcases List.mem_cons.mp hp with h1 | h2
      · rw [h1]; exact Bool.eq_false_iff.mpr h
      · have := habs p h2
        rw [List.any_append] at this
        exact (Bool.or_eq_false_iff.mp this).1

/-- `collection.add` preserves uniqueness of the stored ids. -/
theorem chromaAdd_nodup (b : List (String × Chunk)) :
    ∀ (st : Store), (st.map Prod.fst).Nodup →
      ((chromaAdd st b).map Prod.fst).Nodup := by
  induction b with
  | nil => intro st h; exact h
  | cons r rs ih =>
    intro st h
    unfold chromaAdd
    by_cases hp : st.any (fun q => q.1 == r.1)
    · rw [if_pos hp]; exact ih st h
    · rw [if_neg hp]
      apply ih
      rw [List.map_append, List.nodup_append]
      refine ⟨h, by simp, ?_⟩
      intro a ha hb
      simp only [List.map_cons, List.map_nil, List.mem_singleton] at hb
      subst hb
      rcases List.mem_map.mp ha with ⟨q, hq, hq1⟩
      exact hp (List.any_eq_true.mpr ⟨q, hq, beq_iff_eq.mpr hq1⟩)

/-- `collection.add` of a batch of fresh, pairwise distinct ids appends
the whole batch. -/
theorem chromaAdd_fresh (b : List (String × Chunk)) :
    ∀ (st : Store), (∀ r ∈ b, st.any (fun q => q.1 == r.1) = false) →
      (b.map Prod.fst).Nodup → chromaAdd st b = st ++ b := by
  induction b with
  | nil => intro st _ _; simp [chromaAdd]
  | cons r rs ih =>
    intro st habs hnd
    unfold chromaAdd
    rw [if_neg (by rw [habs r (List.mem_cons_self r rs)]; exact Bool.false_ne_true)]
    rw [ih (st ++ [r]) ?_ (List.nodup_cons.mp hnd).2]
    · simp
    · intro r' hr'
      rw [List.any_append]
      apply Bool.or_eq_false_iff.mpr
      refine ⟨habs r' (List.mem_cons_of_mem r hr'), ?_⟩
      simp only [List.any_cons, List.any_nil, Bool.or_false]
      apply beq_eq_false_iff_ne.mpr
      intro hcontra
      exact (List.nodup_cons.mp hnd).1
        (hcontra ▸ List.mem_map.mpr ⟨r', hr', rfl⟩)

/-- Zipping a mapped list with the original pairs each element with its
image. -/
theorem map_zip_self {α β : Type} (f : α → β) (l : List α) :
    (l.map f).zip l = l.map fun a => (f a, a) := by
  induction l with
  | nil => rfl
  | cons a as ih => simp [ih]

/-- Claim C1: the threshold gate of `search_with_threshold` returns
`([], false)` on an empty search result set; otherwise it inspects only
the first result — which, the backend returning results sorted by
ascending distance, carries the single lowest distance — and returns all
retrieved results with `use_rag = true` iff that best distance is at most
the threshold, and `([], false)` otherwise. -/
theorem threshold_gate_algorithm (t : ℚ) (results : List SearchResult)
    (hsorted : results.Pairwise fun a b => a.distance ≤ b.distance) :
    (results = [] → search_with_threshold results t = ([], false)) ∧
    ∀ r rs, results = r :: rs →
      (∀ x ∈ results, r.distance ≤ x.distance) ∧
      (r.distance ≤ t → search_with_threshold results t = (results, true)) ∧
      (t < r.distance → search_with_threshold results t = ([], false)) := by
  constructor
  · rintro rfl; rfl
  · rintro r rs rfl
    refine ⟨?_, ?_, ?_⟩
    · intro x hx
      rcases List.mem_cons.mp hx with h | h
      · exact h ▸ le_refl _
      · exact (List.pairwise_cons.mp hsorted).1 x h
    · intro h; simp [search_with_threshold, h]
    · intro h; simp [search_with_threshold, not_le.mpr h]

/-- Witness for C1: a singleton result at distance 1 against threshold 2
is accepted whole. -/
theorem threshold_gate_algorithm_witness :
    search_with_threshold [sampleResult] 2 = ([sampleResult], true) :=
  ((threshold_gate_algorithm 2 [sampleResult] (by simp)).2 sampleResult [] rfl).2.1
    (by norm_num [sampleResult, sampleMeta])

/-- Counterexample to C2 as stated: the store write of `add_documents` is
`collection.add`, not `upsert`; writing a record whose id already exists
leaves the prior record's content in place instead of overwriting it. -/
theorem add_existing_id_does_not_overwrite :
    chromaAdd [("doc.pdf_1_0", chunkOld)] [("doc.pdf_1_0", chunkNew)]
        = [("doc.pdf_1_0", chunkOld)] ∧ chunkOld ≠ chunkNew := by
  exact ⟨by decide, by decide⟩

/-- Claim C2 (amended): ingesting the same chunk list twice derives the
same deterministic ids and leaves the store exactly as after the first
ingestion (no duplication); a write whose id already exists keeps the
prior record unchanged — it neither overwrites nor adds a second record,
so id uniqueness is preserved. -/
theorem reingestion_idempotent (st : Store) (chunks : List Chunk) :
    (add_documents okEmbed okAdd
        (add_documents okEmbed okAdd st chunks).2 chunks).2
        = (add_documents okEmbed okAdd st chunks).2 ∧
    (∃ ext, (add_documents okEmbed okAdd st chunks).2 = st ++ ext ∧
        ∀ p ∈ ext, st.any (fun q => q.1 == p.1) = false) ∧
    ((st.map Prod.fst).Nodup →
      (((add_documents okEmbed okAdd st chunks).2).map Prod.fst).Nodup) := by
  by_cases h : chunks = []
  · subst h
    refine ⟨rfl, ⟨[], by simp [add_documents], by simp⟩, fun hn => hn⟩
  · simp only [add_documents, okEmbed, okAdd, if_neg h]
    refine ⟨chromaAdd_idem st _, chromaAdd_extends _ st, chromaAdd_nodup _ st⟩

/-- Witness for C2: ingesting a concrete chunk into the empty store (its
id list is trivially duplicate-free) yields a store with pairwise
distinct ids. -/
theorem reingestion_idempotent_witness :
    (((add_documents okEmbed okAdd [] [chunkOld]).2).map Prod.fst).Nodup :=
  (reingestion_idempotent [] [chunkOld]).2.2 (by simp)

/-- Counterexample to C3 as stated: with `overlap = chunk_size = 500`
(so `overlap >= chunk_size`), constructing the pipeline succeeds. -/
theorem init_overlap_eq_chunk_size_succeeds :
    document_processor_init 500 500
        = .ok { chunk_size := 500, chunk_overlap := 500 }
      ∧ 500 ≤ 500 := ⟨by simp [document_processor_init], le_refl 500⟩

/-- Claim C3 (amended): constructing the pipeline fails immediately at
construction time exactly when `overlap > chunk_size` (strictly greater;
`overlap = chunk_size` is accepted). -/
theorem init_fails_iff_overlap_gt (cs ov : Nat) :
    (∃ e, document_processor_init cs ov = .error e) ↔ cs < ov := by
  unfold document_processor_init
  by_cases h : ov > cs <;> simp [h]

/-- Claim C4: no public ingestion or query operation lets a backend or
extraction failure escape: a failing embedding service or store write
makes `add_documents` return `False` with the store untouched, a failing
query embedding or nearest-neighbour lookup makes `search` return `[]`,
and a failing document open makes `extract_text_from_pdf` return `[]`. -/
theorem no_fault_escapes :
    (∀ (e : String) collectionAdd (st : Store) (chunks : List Chunk),
        add_documents (fun _ => .error e) collectionAdd st chunks = (false, st)) ∧
    (∀ (e : String) (st : Store) (chunks : List Chunk),
        add_documents okEmbed (fun _ _ => .error e) st chunks = (false, st)) ∧
    (∀ (e : String) backendQuery, search (.error e) backendQuery = []) ∧
    (∀ (qe : List ℚ) (e : String),
        search (.ok qe) (fun _ => .error e) = []) ∧
    (∀ (fileName : String) (e : String),
        extract_text_from_pdf fileName (.error e) = []) := by
  refine ⟨?_, ?_, fun e bq => rfl, fun qe e => rfl, fun fn e => rfl⟩
  · intro e ca st chunks
    by_cases h : chunks = [] <;> simp [add_documents, h]
  · intro e st chunks
    by_cases h : chunks = [] <;> simp [add_documents, okEmbed, h]

/-- Claim C5: whenever the retrieval decision is negative the payloads
are all empty: `search_with_threshold` only ever pairs `use_rag = false`
with an empty result list, and the corresponding decision structure of
`get_rag_response_data` has empty context, prompt and search results. -/
theorem rag_negative_payload_empty (t : ℚ) (results : List SearchResult) (q : String) :
    (∀ rs, search_with_threshold results t = (rs, false) → rs = []) ∧
    ((get_rag_response_data q results t).use_rag = false →
      (get_rag_response_data q results t).context = "" ∧
      (get_rag_response_data q results t).prompt = "" ∧
      (get_rag_response_data q results t).search_results = []) := by
  constructor
  · intro rs h
    cases results with
    | nil =>
      simp only [search_with_threshold] at h
      exact (Prod.mk.injEq _ _ _ _ ▸ h).1.symm
    | cons r rest =>
      by_cases hd : r.distance ≤ t
      · simp [search_with_threshold, hd] at h
      · simp only [search_with_threshold, if_neg hd] at h
        exact ((Prod.mk.injEq _ _ _ _).mp h).1.symm
  · intro h
    by_cases hb : (search_with_threshold results t).2
    · simp [get_rag_response_data, hb] at h
    · simp [get_rag_response_data, hb]

/-- Witness for C5: at threshold 0 the sample result (distance 1) is
rejected and every payload field is empty. -/
theorem rag_negative_payload_empty_witness :
    ([] : List SearchResult) = [] ∧
    (get_rag_response_data "質問" [sampleResult] 0).context = "" ∧
    (get_rag_response_data "質問" [sampleResult] 0).prompt = "" ∧
    (get_rag_response_data "質問" [sampleResult] 0).search_results = [] :=
  ⟨(rag_negative_payload_empty 0 [sampleResult] "質問").1 [] (by decide),
    (rag_negative_payload_empty 0 [sampleResult] "質問").2 (by decide)⟩

/-- Claim C7: the record id written for every ingested chunk is exactly
the string `"{source}_{page}_{chunk_index}"` built from that chunk's
metadata, and ingesting a batch with pairwise distinct ids into an empty
store persists records keyed by exactly those ids (ids are a pure
function of the chunks, hence identical across re-runs on unchanged
input). -/
theorem record_id_format (chunks : List Chunk)
    (hnd : (chunks.map recordId).Nodup) :
    chunks.map recordId
        = chunks.map (fun c =>
            c.metadata.source ++ "_" ++ toString c.metadata.page ++ "_"
              ++ toString c.metadata.chunk_index) ∧
    (add_documents okEmbed okAdd [] chunks).2 = (chunks.map recordId).zip chunks ∧
    ((add_documents okEmbed okAdd [] chunks).2).map Prod.fst
        = chunks.map recordId := by
  have hz : ((chunks.map recordId).zip chunks).map Prod.fst
      = chunks.map recordId := by
    rw [map_zip_self, List.map_map]; rfl
  refine ⟨rfl, ?_, ?_⟩
  · by_cases hc : chunks = []
    · subst hc; rfl
    · simp only [add_documents, okEmbed, okAdd, if_neg hc]
      rw [chromaAdd_fresh _ [] (by simp) (by rw [hz]; exact hnd)]
      simp
  · by_cases hc : chunks = []
    · subst hc; rfl
    · simp only [add_documents, okEmbed, okAdd, if_neg hc]
      rw [chromaAdd_fresh _ [] (by simp) (by rw [hz]; exact hnd)]
      rw [List.nil_append]
      exact hz

/-- Witness for C7: ingesting two concrete chunks of doc.pdf yields the
records keyed doc.pdf_1_0 and doc.pdf_1_1. -/
theorem record_id_format_witness :
    (add_documents okEmbed okAdd [] [chunkOld, chunkB]).2
        = [("doc.pdf_1_0", chunkOld), ("doc.pdf_1_1", chunkB)] := by
  have h := (record_id_format [chunkOld, chunkB] (by decide)).2.1
  rw [h]; decide

/-- Claim C10: `add_documents` on the empty chunk list returns `False`
and leaves the store unchanged, independently of the embedding service
and the backend — no embedding call and no store write can influence the
result. -/
theorem add_documents_empty_noop :
    (∀ embedDocs collectionAdd (st : Store),
        add_documents embedDocs collectionAdd st [] = (false, st)) ∧
    (∀ e₁ c₁ e₂ c₂ (st : Store),
        add_documents e₁ c₁ st [] = add_documents e₂ c₂ st []) := by
  exact ⟨fun _ _ _ => rfl, fun _ _ _ _ _ => rfl⟩

/-- Gluing adjacent ranges. -/
theorem range'_glue : ∀ (m s n : Nat),
    List.range' s m ++ List.range' (s + m) n = List.range' s (m + n) := by
  intro m
  induction m with
  | zero => intro s n; simp
  | succ m ih =>
    intro s n
    rw [List.range'_succ, Nat.succ_add, List.range'_succ, List.cons_append]
    congr 1
    have hoff : s + (m + 1) = s + 1 + m := by omega
    rw [hoff, ih (s + 1) n]

/-- `attachChunks` produces one chunk per chunk text. -/
theorem attachChunks_length (m : PageMeta) :
    ∀ (ts : List Text) (i : Nat), (attachChunks m ts i).length = ts.length := by
  intro ts
  induction ts with
  | nil => intro i; rfl
  | cons t ts ih => intro i; simp [attachChunks, ih]

/-- The chunk indices attached within one page are consecutive, starting
at the running index. -/
theorem attachChunks_map_idx (m : PageMeta) :
    ∀ (ts : List Text) (i : Nat),
      (attachChunks m ts i).map (fun c => c.metadata.chunk_index)
        = List.range' i ts.length := by
  intro ts
  induction ts with
  | nil => intro i; rfl
  | cons t ts ih =>
    intro i
    rw [attachChunks, List.map_cons, ih (i + 1), List.length_cons, List.range'_succ]

/-- The chunk indices over a whole document scan are consecutive from the
running index on. -/
theorem splitIntoChunksGo_map_idx (cs ov : Nat) :
    ∀ (pages : List Page) (i : Nat),
      (splitIntoChunksGo cs ov pages i).map (fun c => c.metadata.chunk_index)
        = List.range' i (splitIntoChunksGo cs ov pages i).length := by
  intro pages
  induction pages with
  | nil => intro i; rfl
  | cons p ps ih =>
    intro i
    rw [splitIntoChunksGo]
    rw [List.map_append, List.length_append]
    rw [attachChunks_map_idx, attachChunks_length, ih]
    exact range'_glue _ i _

/-- Claim C8: over any list of pages, the `chunk_index` values of the
produced chunks are exactly `0, 1, 2, ...` across the whole document
scan, in order and never reset at page boundaries. -/
theorem chunk_index_monotone (cs ov : Nat) (pages : List Page) :
    (split_into_chunks cs ov pages).map (fun c => c.metadata.chunk_index)
      = List.range (split_into_chunks cs ov pages).length := by
  rw [List.range_eq_range']
  exact splitIntoChunksGo_map_idx cs ov pages 0

/-- One rendered block per search result. -/
theorem buildRagContextGo_length :
    ∀ (rs : List SearchResult) (i : Nat),
      (buildRagContextGo rs i).length = rs.length := by
  intro rs
  induction rs with
  | nil => intro i; rfl
  | cons r rest ih => intro i; simp [buildRagContextGo, ih]

/-- The rendering loop enumerates the results in order, numbering them
from the given start. -/
theorem buildRagContextGo_eq :
    ∀ (rs : List SearchResult) (i : Nat),
      buildRagContextGo rs i
        = ((List.range rs.length).zip rs).map
            (fun p => "【参照資料" ++ toString (p.1 + i) ++ "】(" ++ p.2.metadata.source
              ++ " / ページ" ++ toString p.2.metadata.page ++ ")\n" ++ p.2.text) := by
  intro rs
  induction rs with
  | nil => intro i; rfl
  | cons r rest ih =>
    intro i
    show _ :: buildRagContextGo rest (i + 1) = _
    rw [ih (i + 1), List.length_cons, List.range_succ_eq_map,
      List.zip_cons_cons, List.map_cons, List.zip_map_left, List.map_map]
    congr 1
    · simp
    · apply List.map_congr_left
      intro p _
      cases p with
      | mk a r' =>
        simp only [Function.comp_apply, Prod.map_apply, id_eq]
        have hnum : a + (i + 1) = Nat.succ a + i := by omega
        rw [hnum]

/-- Claim C9: on a non-empty result list, `build_rag_context` renders one
block per result, numbered 1..n in input order, each block carrying the
result's source, its page and its text verbatim, joined by blank lines. -/
theorem context_blocks_numbered (results : List SearchResult) (h : results ≠ []) :
    build_rag_context results
        = String.intercalate "\n\n"
            (((List.range results.length).zip results).map fun p =>
              "【参照資料" ++ toString (p.1 + 1) ++ "】(" ++ p.2.metadata.source
                ++ " / ページ" ++ toString p.2.metadata.page ++ ")\n" ++ p.2.text) ∧
    (buildRagContextGo results 1).length = results.length := by
  refine ⟨?_, buildRagContextGo_length results 1⟩
  unfold build_rag_context
  rw [if_neg h, buildRagContextGo_eq]

/-- Witness for C9: the sample result renders as the single numbered
block. -/
theorem context_blocks_numbered_witness :
    build_rag_context [sampleResult] = "【参照資料1】(rules.pdf / ページ3)\n本文" := by
  have h := (context_blocks_numbered [sampleResult] (by simp)).1
  rw [h]
  rfl

/-! Lemmas establishing the chunk-size bound of the splitter. -/

/-- Stripping whitespace never lengthens a text. -/
theorem stripText_length_le (t : Text) : (stripText t).length ≤ t.length := by
  unfold stripText
  rw [List.length_reverse]
  calc ((t.dropWhile Char.isWhitespace).reverse.dropWhile Char.isWhitespace).length
      ≤ (t.dropWhile Char.isWhitespace).reverse.length :=
        (List.dropWhile_suffix _).sublist.length_le
    _ = (t.dropWhile Char.isWhitespace).length := List.length_reverse _
    _ ≤ t.length := (List.dropWhile_suffix _).sublist.length_le

/-- A joined doc is no longer than the sum of the lengths of its parts. -/
theorem joinDocs_length_le (docs : List Text) (d : Text) (h : joinDocs docs = some d) :
    d.length ≤ (docs.map List.length).sum := by
  unfold joinDocs at h
  by_cases he : stripText docs.flatten = []
  · rw [if_pos he] at h; cases h
  · rw [if_neg he] at h
    cases h
    calc (stripText docs.flatten).length
        ≤ docs.flatten.length := stripText_length_le _
      _ = (docs.map List.length).sum := List.length_flatten docs

/-- Behaviour of the overlap popping loop, under the invariant that
`total` is the sum of the lengths of the retained splits: the result
keeps the invariant, retains at most `chunk_overlap` characters, and
either makes room for the incoming split or retains nothing. -/
theorem popOverlap_spec (cs ov dlen : Nat) :
    ∀ (cd : List Text) (total : Nat), total = (cd.map List.length).sum →
      (popOverlap cs ov dlen cd total).2
          = ((popOverlap cs ov dlen cd total).1.map List.length).sum ∧
      (popOverlap cs ov dlen cd total).2 ≤ ov ∧
      ((popOverlap cs ov dlen cd total).2 + dlen ≤ cs ∨
        (popOverlap cs ov dlen cd total).2 = 0) := by
  intro cd
  induction cd with
  | nil =>
    intro total h
    simp only [List.map_nil, List.sum_nil] at h
    subst h
    simp [popOverlap]
  | cons c rest ih =>
    intro total h
    simp only [List.map_cons, List.sum_cons] at h
    by_cases hc : total > ov ∨ (total + dlen > cs ∧ total > 0)
    · have hrw : popOverlap cs ov dlen (c :: rest) total
          = popOverlap cs ov dlen rest (total - c.length) := by
        simp only [popOverlap]; rw [if_pos hc]
      rw [hrw]
      apply ih
      omega
    · have hrw : popOverlap cs ov dlen (c :: rest) total = (c :: rest, total) := by
        simp only [popOverlap]; rw [if_neg hc]
      rw [hrw]
      refine ⟨by simpa using h, by omega, by omega⟩

/-- Every doc emitted by the merge loop fits in `chunk_size`, provided
every incoming split does, the invariant on `total` holds, and `total`
still fits. -/
theorem mergeSplitsGo_bound (cs ov : Nat) :
    ∀ (splits currentDoc : List Text) (total : Nat) (docs : List Text),
      total = (currentDoc.map List.length).sum →
      total ≤ cs →
      (∀ s ∈ splits, s.length ≤ cs) →
      (∀ d ∈ docs, d.length ≤ cs) →
      ∀ x ∈ mergeSplitsGo cs ov splits currentDoc total docs, x.length ≤ cs := by
  intro splits
  induction splits with
  | nil =>
    intro cd total docs hsum hle _ hdocs x hx
    simp only [mergeSplitsGo] at hx
    cases hj : joinDocs cd with
    | none => rw [hj] at hx; exact hdocs x hx
    | some dd =>
      rw [hj] at hx
      rcases List.mem_append.mp hx with hx1 | hx2
      · exact hdocs x hx1
      · rw [List.mem_singleton.mp hx2]
        calc dd.length ≤ (cd.map List.length).sum := joinDocs_length_le cd dd hj
          _ ≤ cs := hsum ▸ hle
  | cons s ss ih =>
    intro cd total docs hsum hle hsplits hdocs x hx
    have hs : s.length ≤ cs := hsplits s (List.mem_cons_self s ss)
    have hss : ∀ s' ∈ ss, s'.length ≤ cs :=
      fun s' h' => hsplits s' (List.mem_cons_of_mem s h')
    by_cases hbig : total + s.length > cs
    · cases cd with
      | nil =>
        simp only [List.map_nil, List.sum_nil] at hsum
        omega
      | cons c cd' =>
        simp only [mergeSplitsGo] at hx
        rw [if_pos hbig] at hx
        obtain ⟨hp1, hp2, hp3⟩ := popOverlap_spec cs ov s.length (c :: cd') total hsum
        refine ih _ _ _ ?_ ?_ hss ?_ x hx
        · rw [List.map_append, List.sum_append, ← hp1]; simp
        · rcases hp3 with h3 | h3
          · exact h3
          · omega
        · intro d hd
          cases hjj : joinDocs (c :: cd') with
          | none => rw [hjj] at hd; exact hdocs d hd
          | some dd =>
            rw [hjj] at hd
            rcases List.mem_append.mp hd with hd1 | hd2
            · exact hdocs d hd1
            · rw [List.mem_singleton.mp hd2]
              calc dd.length ≤ ((c :: cd').map List.length).sum :=
                    joinDocs_length_le _ dd hjj
                _ ≤ cs := hsum ▸ hle
    · simp only [mergeSplitsGo] at hx
      rw [if_neg hbig] at hx
      refine ih _ _ _ ?_ (by omega) hss hdocs x hx
      rw [List.map_append, List.sum_append, hsum]; simp

/-- Every doc of `_merge_splits` fits in `chunk_size` when every split
does. -/
theorem mergeSplits_bound (cs ov : Nat) (splits : List Text)
    (h : ∀ s ∈ splits, s.length ≤ cs) :
    ∀ x ∈ mergeSplits cs ov splits, x.length ≤ cs := by
  intro x hx
  exact mergeSplitsGo_bound cs ov splits [] 0 [] rfl (Nat.zero_le cs) h
    (by simp) x hx

/-- When the separator list contains `""`, the separator chooser picks
`""` whenever no separators remain, and otherwise the remaining
separators still contain `""`. -/
theorem chooseSep_props (seps : List Text) (text : Text) (h : [] ∈ seps) :
    ((chooseSep seps text).2 = [] → (chooseSep seps text).1 = []) ∧
    ((chooseSep seps text).2 ≠ [] → [] ∈ (chooseSep seps text).2) := by
  induction seps with
  | nil => cases h
  | cons s rest ih =>
    by_cases hs : s = []
    · simp [chooseSep, hs]
    · have hrest : [] ∈ rest := by
        rcases List.mem_cons.mp h with h1 | h2
        · exact absurd h1.symm hs
        · exact h2
      by_cases ho : occursIn s text
      · constructor
        · intro hr
          exfalso
          simp only [chooseSep, if_neg hs, if_pos ho] at hr
          rw [hr] at hrest
          cases hrest
        · intro _
          simp only [chooseSep, if_neg hs, if_pos ho]
          exact hrest
      · cases rest with
        | nil => cases hrest
        | cons r' rs' =>
          have hunf : chooseSep (s :: r' :: rs') text = chooseSep (r' :: rs') text := by
            simp only [chooseSep, if_neg hs, if_neg ho]
          rw [hunf]
          exact ih hrest

/-- With the empty separator, every piece is a single character. -/
theorem mem_splitTextWithSep_nil (t s : Text) (h : s ∈ splitTextWithSep [] t) :
    s.length = 1 := by
  unfold splitTextWithSep at h
  rw [if_pos rfl] at h
  rcases List.mem_filter.mp h with ⟨hm, _⟩
  rcases List.mem_map.mp hm with ⟨c, _, rfl⟩
  rfl

/-- An empty separator list produces no chunks (unreachable in Python,
which would fail on `separators[-1]`). -/
theorem splitTextFuel_nilSeps (cs ov : Nat) :
    ∀ (fuel : Nat) (t : Text), splitTextFuel cs ov fuel [] t = [] := by
  intro fuel t; cases fuel <;> rfl

/-- Every chunk of the per-split loop fits in `chunk_size`, given that
recursive splitting does, that raw mode only ever sees splits that fit,
and that the buffered splits fit. -/
theorem goSplitsF_bound (cs ov : Nat) (recurse : Text → List Text) (isRaw : Bool)
    (hrec : ∀ t x, x ∈ recurse t → x.length ≤ cs) :
    ∀ (splits good : List Text),
      (isRaw = true → ∀ s ∈ splits, s.length ≤ cs) →
      (∀ g ∈ good, g.length ≤ cs) →
      ∀ x ∈ goSplitsF cs ov recurse isRaw splits good, x.length ≤ cs := by
  intro splits
  induction splits with
  | nil =>
    intro good _ hg x hx
    simp only [goSplitsF] at hx
    by_cases hgood : good = []
    · rw [if_pos hgood] at hx; cases hx
    · rw [if_neg hgood] at hx; exact mergeSplits_bound cs ov good hg x hx
  | cons s ss ih =>
    intro good hr hg x hx
    simp only [goSplitsF] at hx
    by_cases hs : s.length < cs
    · rw [if_pos hs] at hx
      refine ih (good ++ [s])
        (fun h s' h' => hr h s' (List.mem_cons_of_mem s h')) ?_ x hx
      intro g hgm
      rcases List.mem_append.mp hgm with h1 | h2
      · exact hg g h1
      · rw [List.mem_singleton.mp h2]; omega
    · rw [if_neg hs] at hx
      rcases List.mem_append.mp hx with hx1 | hx2
      · rcases List.mem_append.mp hx1 with hxa | hxb
        · by_cases hgood : good = []
          · rw [if_pos hgood] at hxa; cases hxa
          · rw [if_neg hgood] at hxa
            exact mergeSplits_bound cs ov good hg x hxa
        · cases isRaw with
          | true =>
            rw [if_pos rfl] at hxb
            rw [List.mem_singleton.mp hxb]
            exact hr rfl s (List.mem_cons_self s ss)
          | false =>
            rw [if_neg Bool.false_ne_true] at hxb
            exact hrec s x hxb
      · exact ih [] (fun h s' h' => hr h s' (List.mem_cons_of_mem s h'))
          (by simp) x hx2

/-- Every chunk of the recursive splitter fits in `chunk_size`, for any
amount of fuel, whenever the separator hierarchy ends in the raw
character separator `""` and `chunk_size ≥ 1`. -/
theorem splitTextFuel_bound (cs ov : Nat) (hcs : 1 ≤ cs) :
    ∀ (fuel : Nat) (seps : List Text) (text : Text), [] ∈ seps →
      ∀ x ∈ splitTextFuel cs ov fuel seps text, x.length ≤ cs := by
  intro fuel
  induction fuel with
  | zero => intro seps text _ x hx; cases hx
  | succ fuel ih =>
    intro seps text hmem x hx
    cases seps with
    | nil => cases hmem
    | cons s rest =>
      simp only [splitTextFuel] at hx
      refine goSplitsF_bound cs ov _ _ ?_ _ [] ?_ (by simp) x hx
      · intro t' x' h'
        by_cases hc2 : (chooseSep (s :: rest) text).2 = []
        · rw [hc2, splitTextFuel_nilSeps] at h'; cases h'
        · exact ih _ t' ((chooseSep_props (s :: rest) text hmem).2 hc2) x' h'
      · intro hre s' hs'
        have hc2 : (chooseSep (s :: rest) text).2 = [] := by
          simpa using hre
        have h1 : (chooseSep (s :: rest) text).1 = [] :=
          (chooseSep_props (s :: rest) text hmem).1 hc2
        rw [h1] at hs'
        have := mem_splitTextWithSep_nil text s' hs'
        omega

/-- The text of every chunk attached within a page comes from that
page's chunk texts. -/
theorem mem_attachChunks_text (m : PageMeta) :
    ∀ (ts : List Text) (i : Nat) (c : Chunk),
      c ∈ attachChunks m ts i → c.text ∈ ts := by
  intro ts
  induction ts with
  | nil => intro i c hc; cases hc
  | cons t ts ih =>
    intro i c hc
    rcases List.mem_cons.mp hc with h1 | h2
    · rw [h1]; exact List.mem_cons_self _ _
    · exact List.mem_cons_of_mem t (ih (i + 1) c h2)

/-- Claim C6 (amended): for chunk_size ≥ 1, every chunk produced by the
chunking step — including the final chunk of a page — has text length at
most chunk_size; consecutive chunks from the same page are not
guaranteed to share an overlapping region (the retained overlap can be
empty, see the counterexample). -/
theorem chunk_length_bounded (cs ov : Nat) (hcs : 1 ≤ cs) (pages : List Page) :
    ∀ c ∈ split_into_chunks cs ov pages, c.text.length ≤ cs := by
  suffices h : ∀ (ps : List Page) (idx : Nat),
      ∀ c ∈ splitIntoChunksGo cs ov ps idx, c.text.length ≤ cs by
    exact h pages 0
  intro ps
  induction ps with
  | nil => intro idx c hc; cases hc
  | cons p ps ih =>
    intro idx c hc
    simp only [splitIntoChunksGo] at hc
    rcases List.mem_append.mp hc with h1 | h2
    · have ht := mem_attachChunks_text p.metadata _ idx c h1
      exact splitTextFuel_bound cs ov hcs defaultSeparators.length
        defaultSeparators p.text (by decide) c.text ht
    · exact ih _ c h2

set_option maxRecDepth 100000 in
/-- Witness for C6 (amended): the first chunk produced from the sample
page respects the bound 50. -/
theorem chunk_length_bounded_witness :
    ({ text := List.replicate 50 'X',
       metadata := { source := "a.pdf", page := 1, chunk_index := 0 } } : Chunk).text.length ≤ 50 :=
  chunk_length_bounded 50 10 (by norm_num) [cxPage] _ (by decide)

set_option maxRecDepth 100000 in
/-- Counterexample to C6 as stated: on the 91-character page `cxPageText`
with `chunk_size = 50` and `overlap = 10`, the chunking step produces two
consecutive chunks of the same page that share no overlapping region at
all (their longest common suffix-prefix has length 0, not ≈ 10). -/
theorem chunking_no_overlap_counterexample :
    (split_into_chunks 50 10 [cxPage]).map (fun c => c.text)
        = [List.replicate 50 'X', List.replicate 40 'Y'] ∧
    overlapLen (List.replicate 50 'X') (List.replicate 40 'Y') = 0 ∧
    (10 : Nat) ≠ 0 :=
  ⟨by decide, by decide, by decide⟩

end SakuChat
